import Mathlib

/-!
Verification of the value/config lifecycle utilities in
`libvehiclenetwork/include/VehicleNetworkDataTypes.h`.

The C++ code manages `vehicle_prop_value_t` / `vehicle_prop_config_t`
records, their variable-length byte buffers, and two optionally-owning
list containers.  We embed it shallowly:

* pointers are `Nat`, with `0` playing the role of `NULL`;
* the heap is explicit: association lists from pointers to byte buffers
  (`new uint8_t[n]` blocks), to value records, to config records, and to
  heap-allocated `List<vehicle_prop_value_t*>` objects;
* `delete`/`delete[]` on a live pointer removes the entry; on a non-null
  pointer that is not live it is undefined behaviour, modelled as `none`
  (respectively `Res.memErr`);
* allocation failure is injected through an oracle (`Heap.oracle`): each
  allocation consumes the head of the oracle list, `false` meaning the
  allocation returns `NULL`; an empty oracle means allocations succeed;
* the build-time macro `ASSERT_ON_NO_MEMORY` is modelled by `AllocMode`:
  in `assertMode` a failed allocation fires `assert` (outcome
  `Res.aborted`), in `propagateMode` the handler action of
  `ASSERT_OR_HANDLE_NO_MEMORY` runs instead;
* the `union` inside `vehicle_prop_value_t` is modelled with disjoint
  fields (`int32_value`, `str_data`, `str_len`); `memcpy` of the whole
  struct is record assignment.
-/

namespace VehicleNetwork

/-- Constant `VEHICLE_VALUE_TYPE_STRING` from the external header `hardware/vehicle.h`. -/
def VEHICLE_VALUE_TYPE_STRING : Nat := 1

/-- Constant `VEHICLE_VALUE_TYPE_BYTES` from the external header `hardware/vehicle.h`. -/
def VEHICLE_VALUE_TYPE_BYTES : Nat := 2

/-- Constant `android::NO_ERROR` from `utils/Errors.h`. -/
def NO_ERROR : Int := 0

/-- Constant `android::NO_MEMORY = -ENOMEM` from `utils/Errors.h`. -/
def NO_MEMORY : Int := -12

/-- Record `vehicle_prop_value_t` (external header `hardware/vehicle.h`): the tagged
record wrapped by the utilities.  `value.str_value` is modelled by the pair
`str_data`/`str_len`; union aliasing with the scalar members is not modelled. -/
structure VehiclePropValue where
  prop : Nat
  value_type : Nat
  timestamp : Int
  zone : Int
  int32_value : Int
  str_data : Nat
  str_len : Nat
deriving DecidableEq

/-- Record `vehicle_prop_config_t` (external header): the fields the utilities touch,
plus representative scalar metadata. `config_string` is `config_string_data`
(pointer) and `config_string_len`. -/
structure VehiclePropConfig where
  prop : Nat
  access : Nat
  value_type : Nat
  config_string_data : Nat
  config_string_len : Nat
deriving DecidableEq

/-- The explicit heap: each association list maps a non-null pointer to a live
allocation of the corresponding kind.  `oracle` injects allocation failures. -/
structure Heap where
  nextPtr : Nat
  bufs : List (Nat × List Nat)
  recs : List (Nat × VehiclePropValue)
  cfgs : List (Nat × VehiclePropConfig)
  lists : List (Nat × List Nat)
  oracle : List Bool
deriving DecidableEq

/-- Keys (pointers) of an association list. -/
def keysOf {α : Type} (l : List (Nat × α)) : List Nat := l.map Prod.fst

/-- First value stored under key `k`. -/
def lookupKey {α : Type} (l : List (Nat × α)) (k : Nat) : Option α :=
  match l with
  | [] => none
  | e :: rest => if e.1 = k then some e.2 else lookupKey rest k

/-- Remove every entry with key `k`. -/
def removeKey {α : Type} (l : List (Nat × α)) (k : Nat) : List (Nat × α) :=
  match l with
  | [] => []
  | e :: rest => if e.1 = k then removeKey rest k else e :: removeKey rest k

/-- Remove the keys in `ks`, one after the other. -/
def removeKeys {α : Type} (l : List (Nat × α)) (ks : List Nat) : List (Nat × α) :=
  match ks with
  | [] => l
  | k :: ks => removeKeys (removeKey l k) ks

/-- Overwrite the value stored under key `k` (no effect on other keys). -/
def setKey {α : Type} (l : List (Nat × α)) (k : Nat) (a : α) : List (Nat × α) :=
  match l with
  | [] => []
  | e :: rest => if e.1 = k then (k, a) :: setKey rest k a else e :: setKey rest k a

/-- Well-formed heap: the allocation frontier is non-null, keys are unique,
non-null and below the frontier `nextPtr`. -/
def Heap.WF (h : Heap) : Prop :=
  0 < h.nextPtr ∧
  (keysOf h.bufs).Nodup ∧ (keysOf h.recs).Nodup ∧ (keysOf h.cfgs).Nodup ∧
  (keysOf h.lists).Nodup ∧
  (∀ p ∈ keysOf h.bufs, 0 < p ∧ p < h.nextPtr) ∧
  (∀ p ∈ keysOf h.recs, 0 < p ∧ p < h.nextPtr) ∧
  (∀ p ∈ keysOf h.cfgs, 0 < p ∧ p < h.nextPtr) ∧
  (∀ p ∈ keysOf h.lists, 0 < p ∧ p < h.nextPtr)

instance (h : Heap) : Decidable (Heap.WF h) := by
  unfold Heap.WF
  infer_instance

/-- Total number of live allocations (buffers, value records, config records
and heap-allocated list objects). -/
def Heap.allocCount (h : Heap) : Nat :=
  h.bufs.length + h.recs.length + h.cfgs.length + h.lists.length

/-- Operator `delete[]` on a byte buffer: a no-op on `NULL`, removal of a live block,
undefined (`none`) on any other pointer (double free or garbage pointer). -/
def freeBuf (h : Heap) (p : Nat) : Option Heap :=
  if p = 0 then some h
  else
    match lookupKey h.bufs p with
    | some _ => some { h with bufs := removeKey h.bufs p }
    | none => none

/-- Operator `delete` on a `vehicle_prop_value_t` record. -/
def freeRec (h : Heap) (p : Nat) : Option Heap :=
  if p = 0 then some h
  else
    match lookupKey h.recs p with
    | some _ => some { h with recs := removeKey h.recs p }
    | none => none

/-- Operator `delete` on a `vehicle_prop_config_t` record. -/
def freeCfg (h : Heap) (p : Nat) : Option Heap :=
  if p = 0 then some h
  else
    match lookupKey h.cfgs p with
    | some _ => some { h with cfgs := removeKey h.cfgs p }
    | none => none

/-- Operator `delete` on a heap-allocated `List<vehicle_prop_value_t*>` object. -/
def freeList (h : Heap) (p : Nat) : Option Heap :=
  if p = 0 then some h
  else
    match lookupKey h.lists p with
    | some _ => some { h with lists := removeKey h.lists p }
    | none => none

/-- Allocation `new uint8_t[len]`: consumes one oracle entry; on success returns a fresh
non-null block (contents unspecified, modelled as zeros and immediately
overwritten by the callers), on injected failure returns `0` (`NULL`). -/
def allocBuf (h : Heap) (len : Nat) : Heap × Nat :=
  match h.oracle with
  | false :: rest => ({ h with oracle := rest }, 0)
  | true :: rest =>
    ({ h with
        oracle := rest
        nextPtr := h.nextPtr + 1
        bufs := (h.nextPtr, List.replicate len 0) :: h.bufs }, h.nextPtr)
  | [] =>
    ({ h with
        nextPtr := h.nextPtr + 1
        bufs := (h.nextPtr, List.replicate len 0) :: h.bufs }, h.nextPtr)

/-- Allocation `new vehicle_prop_value_t()`: consumes one oracle entry; on success the
fresh record holds `v` (the callers pass the value-initialised record). -/
def allocRec (h : Heap) (v : VehiclePropValue) : Heap × Nat :=
  match h.oracle with
  | false :: rest => ({ h with oracle := rest }, 0)
  | true :: rest =>
    ({ h with
        oracle := rest
        nextPtr := h.nextPtr + 1
        recs := (h.nextPtr, v) :: h.recs }, h.nextPtr)
  | [] =>
    ({ h with
        nextPtr := h.nextPtr + 1
        recs := (h.nextPtr, v) :: h.recs }, h.nextPtr)

/-- A `memcpy(dst, src, len)` reading `len` bytes from buffer `p`; undefined
(`none`) if `p` is null, dangling, or shorter than `len`. -/
def readBuf (h : Heap) (p : Nat) (len : Nat) : Option (List Nat) :=
  if p = 0 then none
  else
    match lookupKey h.bufs p with
    | some bs => if len ≤ bs.length then some (bs.take len) else none
    | none => none

/-- A `memcpy` writing `bs` at the start of buffer `p`; undefined (`none`) if
`p` is not live or too short. -/
def writeBuf (h : Heap) (p : Nat) (bs : List Nat) : Option Heap :=
  match lookupKey h.bufs p with
  | some old =>
    if bs.length ≤ old.length then
      some { h with bufs := setKey h.bufs p (bs ++ old.drop bs.length) }
    else none
  | none => none

/-- Store a record value through a pointer that is known to be live. -/
def setRec (h : Heap) (p : Nat) (v : VehiclePropValue) : Heap :=
  { h with recs := setKey h.recs p v }

/-- Build-time selection of the `ASSERT_ON_NO_MEMORY` macro (header line 38
defines it): `assertMode` makes `ASSERT_OR_HANDLE_NO_MEMORY` an `assert`,
`propagateMode` makes it run its handler action on `NULL`. -/
inductive AllocMode where
  | assertMode
  | propagateMode
deriving DecidableEq

/-- Outcome of running a piece of the embedded code: normal completion,
process abort through a failed `assert`, or undefined behaviour (invalid
free or invalid memory access). -/
inductive Res (α : Type) where
  | ok : α → Res α
  | aborted : Res α
  | memErr : Res α
deriving DecidableEq

/-- The `switch (v->value_type)` body of `VehiclePropValueUtil::deleteMembers`
(header lines 114-119), applied to the pointee: for `BYTES`/`STRING` it runs
`delete[] v->value.str_value.data`, otherwise it does nothing. -/
def deleteMembersVal (h : Heap) (v : VehiclePropValue) : Option Heap :=
  if v.value_type = VEHICLE_VALUE_TYPE_BYTES ∨ v.value_type = VEHICLE_VALUE_TYPE_STRING then
    freeBuf h v.str_data
  else some h

/-- Function `VehiclePropValueUtil::deleteMembers` (header lines 110-120), called with
a record pointer: `NULL` is checked and returns immediately; a live pointer
is dereferenced and the `switch` body runs; a dangling pointer is undefined. -/
def VehiclePropValueUtil.deleteMembers (h : Heap) (p : Nat) : Option Heap :=
  if p = 0 then some h
  else
    match lookupKey h.recs p with
    | some v => deleteMembersVal h v
    | none => none

/-- Function `VehiclePropertiesUtil::deleteMembers` (header lines 61-65): dereferences
`config` with no null check (`NULL` or dangling is undefined behaviour); then
frees `config_string.data` when it is non-null and the length is positive. -/
def VehiclePropertiesUtil.deleteMembers (h : Heap) (p : Nat) : Option Heap :=
  match lookupKey h.cfgs p with
  | some c =>
    if c.config_string_data ≠ 0 ∧ c.config_string_len > 0 then
      freeBuf h c.config_string_data
    else some h
  | none => none

/-- Lines 124-126 of `VehiclePropValueUtil::copyVehicleProp`: when
`deleteOldData && dest->value.str_value.data != NULL &&
dest->value.str_value.len > 0`, run `delete[]` on the destination's old
buffer. -/
def copyReleaseOld (h : Heap) (dest : VehiclePropValue) (deleteOldData : Bool) :
    Option Heap :=
  if deleteOldData = true ∧ dest.str_data ≠ 0 ∧ dest.str_len > 0 then
    freeBuf h dest.str_data
  else some h

/-- Lines 127-141 of `VehiclePropValueUtil::copyVehicleProp`:
`memcpy(dest, &src, sizeof)` (record assignment, `let d := src`), then the
`switch (src.value_type)`: for `BYTES`/`STRING` with positive length,
allocate a fresh buffer, run `ASSERT_OR_HANDLE_NO_MEMORY(..., return
NO_MEMORY)`, and byte-copy the source buffer; zero length sets the
destination pointer to `NULL`; scalar kinds fall through to `NO_ERROR`. -/
def copyPayload (mode : AllocMode) (h1 : Heap) (src : VehiclePropValue) :
    Res (Heap × VehiclePropValue × Int) :=
  let d := src
  if src.value_type = VEHICLE_VALUE_TYPE_BYTES ∨ src.value_type = VEHICLE_VALUE_TYPE_STRING then
    if 0 < d.str_len then
      let a := allocBuf h1 d.str_len
      if a.2 = 0 then
        match mode with
        | AllocMode.assertMode => Res.aborted
        | AllocMode.propagateMode => Res.ok (a.1, { d with str_data := 0 }, NO_MEMORY)
      else
        match readBuf a.1 src.str_data d.str_len with
        | none => Res.memErr
        | some bs =>
          match writeBuf a.1 a.2 bs with
          | none => Res.memErr
          | some h3 => Res.ok (h3, { d with str_data := a.2 }, NO_ERROR)
    else Res.ok (h1, { d with str_data := 0 }, NO_ERROR)
  else Res.ok (h1, d, NO_ERROR)

/-- Function `VehiclePropValueUtil::copyVehicleProp` (header lines 122-142): the
optional pre-release of the destination's old buffer, then the whole-record
copy and payload duplication.  Returns the final heap, the record stored
through `dest`, and the `status_t` result. -/
def copyVehicleProp (mode : AllocMode) (h : Heap) (dest src : VehiclePropValue)
    (deleteOldData : Bool) : Res (Heap × VehiclePropValue × Int) :=
  match copyReleaseOld h dest deleteOldData with
  | none => Res.memErr
  | some h1 => copyPayload mode h1 src

/-- The record produced by `new vehicle_prop_value_t()` (value initialisation)
and by `memset(&value, 0, sizeof(value))`: every field is zero. -/
def zeroValue : VehiclePropValue :=
  { prop := 0, value_type := 0, timestamp := 0, zone := 0, int32_value := 0,
    str_data := 0, str_len := 0 }

/-- Function `VehiclePropValueUtil::allocVehicleProp` (header lines 147-155).
Allocates a record behind a `unique_ptr`, runs `ASSERT_OR_HANDLE_NO_MEMORY(
copy.get(), return NO_MEMORY)` — note the handler returns the `status_t`
constant `NO_MEMORY` from a function whose return type is a pointer — then
deep-copies with `copyVehicleProp`; a copy failure returns `NULL` and the
`unique_ptr` destructor plain-`delete`s the record; success releases the
`unique_ptr` and returns the pointer.  The returned `Int` is the pointer
value (`0` = `NULL`, positive = live pointer, `NO_MEMORY` = the ill-typed
handler result). -/
def allocVehicleProp (mode : AllocMode) (h : Heap) (v : VehiclePropValue) :
    Res (Heap × Int) :=
  let a := allocRec h zeroValue
  if a.2 = 0 then
    match mode with
    | AllocMode.assertMode => Res.aborted
    | AllocMode.propagateMode => Res.ok (a.1, NO_MEMORY)
  else
    match copyVehicleProp mode a.1 zeroValue v false with
    | Res.aborted => Res.aborted
    | Res.memErr => Res.memErr
    | Res.ok (h2, d, r) =>
      let h3 := setRec h2 a.2 d
      if r = NO_ERROR then Res.ok (h3, Int.ofNat a.2)
      else
        match freeRec h3 a.2 with
        | none => Res.memErr
        | some h4 => Res.ok (h4, 0)

/-- The exit paths out of a C++ scope holding a `ScopedVehiclePropValue`. -/
inductive ExitPath where
  | normalReturn
  | earlyReturn
  | errorExit
deriving DecidableEq

/-- The `ScopedVehiclePropValue` constructor (header lines 172-174):
`memset(&value, 0, sizeof(value))`. -/
def scopedValueCtor : VehiclePropValue := zeroValue

/-- The `ScopedVehiclePropValue` destructor (header lines 176-178):
C++ runs it exactly once when control leaves the scope, whichever exit path
is taken; it calls `VehiclePropValueUtil::deleteMembers(&value)` on the
embedded stack record (the address of a member is never `NULL`, so the null
check passes and the `switch` body runs). -/
def scopedValueDtor (h : Heap) (v : VehiclePropValue) (e : ExitPath) : Option Heap :=
  match e with
  | _ => deleteMembersVal h v

/-- The element loop of `~VehiclePropValueListHolder` (header lines 197-200):
for each contained pointer, `VehiclePropValueUtil::deleteMembers(pv)` then
`delete pv`. -/
def destroyValueElems (h : Heap) (ps : List Nat) : Option Heap :=
  match ps with
  | [] => some h
  | p :: rest =>
    match VehiclePropValueUtil.deleteMembers h p with
    | none => none
    | some h1 =>
      match freeRec h1 p with
      | none => none
      | some h2 => destroyValueElems h2 rest

/-- Destructor `~VehiclePropValueListHolder` (header lines 195-203): when
`mDeleteInDestructor && mList != NULL`, destroy every element and then
`delete mList` (the heap-allocated `List` object); otherwise nothing is
freed — with the flag unset even the borrowed `List` object survives. -/
def VehiclePropValueListHolder.dtor (h : Heap) (mListPtr : Nat)
    (mDeleteInDestructor : Bool) : Option Heap :=
  if mDeleteInDestructor = true ∧ mListPtr ≠ 0 then
    match lookupKey h.lists mListPtr with
    | none => none
    | some elems =>
      match destroyValueElems h elems with
      | none => none
      | some h1 => freeList h1 mListPtr
  else some h

/-- The element loop of `~VehiclePropertiesHolder` (header lines 83-87):
for each contained config pointer, `VehiclePropertiesUtil::deleteMembers`
then `delete`. -/
def destroyCfgElems (h : Heap) (ps : List Nat) : Option Heap :=
  match ps with
  | [] => some h
  | p :: rest =>
    match VehiclePropertiesUtil.deleteMembers h p with
    | none => none
    | some h1 =>
      match freeCfg h1 p with
      | none => none
      | some h2 => destroyCfgElems h2 rest

/-- Destructor `~VehiclePropertiesHolder` (header lines 79-89): returns immediately when
`mDeleteConfigsInDestructor` is unset; otherwise destroys every element and
clears the member list (`mList` is a by-value member, its node storage is
part of the holder object and outside the modelled heap). -/
def VehiclePropertiesHolder.dtor (h : Heap) (mList : List Nat)
    (mDeleteConfigsInDestructor : Bool) : Option Heap :=
  if mDeleteConfigsInDestructor = true then destroyCfgElems h mList
  else some h

/-- The buffer owned by the value record behind pointer `p`, when there is
one: a live record of a buffer kind with a non-null `str_data`. -/
def elemBuf (h : Heap) (p : Nat) : Option Nat :=
  match lookupKey h.recs p with
  | some v =>
    if (v.value_type = VEHICLE_VALUE_TYPE_BYTES ∨
        v.value_type = VEHICLE_VALUE_TYPE_STRING) ∧ v.str_data ≠ 0 then
      some v.str_data
    else none
  | none => none

/-- The buffers owned by a list of value records. -/
def elemBufs (h : Heap) (ps : List Nat) : List Nat := ps.filterMap (elemBuf h)

/-- The configuration string owned by the config record behind pointer `p`,
when the destructor would free it. -/
def cfgBuf (h : Heap) (p : Nat) : Option Nat :=
  match lookupKey h.cfgs p with
  | some c =>
    if c.config_string_data ≠ 0 ∧ c.config_string_len > 0 then
      some c.config_string_data
    else none
  | none => none

/-- The configuration strings owned by a list of config records. -/
def cfgBufs (h : Heap) (ps : List Nat) : List Nat := ps.filterMap (cfgBuf h)

/-- One element of an owning value list is in a destructible state: a live
record whose buffer, when the record is of a buffer kind with a non-null
pointer, is itself live. -/
def valueElemOk (h : Heap) (p : Nat) : Bool :=
  match lookupKey h.recs p with
  | some v =>
    if (v.value_type = VEHICLE_VALUE_TYPE_BYTES ∨
        v.value_type = VEHICLE_VALUE_TYPE_STRING) ∧ v.str_data ≠ 0 then
      (lookupKey h.bufs v.str_data).isSome
    else true
  | none => false

/-- One element of an owning config list is in a destructible state. -/
def cfgElemOk (h : Heap) (p : Nat) : Bool :=
  match lookupKey h.cfgs p with
  | some c =>
    if c.config_string_data ≠ 0 ∧ c.config_string_len > 0 then
      (lookupKey h.bufs c.config_string_data).isSome
    else true
  | none => false

/-- The empty heap. -/
def emptyHeap : Heap :=
  { nextPtr := 1, bufs := [], recs := [], cfgs := [], lists := [], oracle := [] }

/-- A three-byte demo buffer, the bytes of "ABC". -/
def demoBytes : List Nat := [65, 66, 67]

/-- A demo source value: a STRING property whose live buffer sits at
pointer 3 in `demoHeap`. -/
def demoSrc : VehiclePropValue :=
  { prop := 1285, value_type := VEHICLE_VALUE_TYPE_STRING, timestamp := 7,
    zone := 2, int32_value := 0, str_data := 3, str_len := 3 }

/-- A demo heap holding just `demoSrc`'s buffer. -/
def demoHeap : Heap :=
  { nextPtr := 5, bufs := [(3, demoBytes)], recs := [], cfgs := [], lists := [],
    oracle := [] }

/-- A demo heap holding `demoSrc`'s buffer, a heap record for `demoSrc`, a
scalar record, a heap-allocated list object over both records, and one
config record owning a two-byte string. -/
def demoHeap2 : Heap :=
  { nextPtr := 20
    bufs := [(3, demoBytes), (11, [88, 89])]
    recs := [(4, demoSrc), (6, { demoSrc with value_type := 16, str_data := 0, str_len := 0 })]
    cfgs := [(12, { prop := 1285, access := 3, value_type := VEHICLE_VALUE_TYPE_STRING,
                    config_string_data := 11, config_string_len := 2 })]
    lists := [(7, [4, 6])]
    oracle := [] }

theorem keysOf_cons {α : Type} (e : Nat × α) (l : List (Nat × α)) :
    keysOf (e :: l) = e.1 :: keysOf l := rfl

theorem mem_keysOf_of_lookupKey {α : Type} {l : List (Nat × α)} {k : Nat} {v : α}
    (hl : lookupKey l k = some v) : k ∈ keysOf l := by
  induction l with
  | nil => simp [lookupKey] at hl
  | cons e rest ih =>
    rw [keysOf_cons]
    by_cases he : e.1 = k
    · simp [he]
    · simp only [lookupKey, if_neg he] at hl
      exact List.mem_cons_of_mem _ (ih hl)

theorem lookupKey_eq_none_of_not_mem {α : Type} {l : List (Nat × α)} {k : Nat}
    (hk : k ∉ keysOf l) : lookupKey l k = none := by
  induction l with
  | nil => rfl
  | cons e rest ih =>
    rw [keysOf_cons] at hk
    have he : e.1 ≠ k := fun h => hk (h ▸ List.mem_cons_self _ _)
    simp only [lookupKey, if_neg he]
    exact ih (fun h => hk (List.mem_cons_of_mem _ h))

theorem lookupKey_isSome_of_mem {α : Type} {l : List (Nat × α)} {k : Nat}
    (hk : k ∈ keysOf l) : (lookupKey l k).isSome = true := by
  induction l with
  | nil => simp [keysOf] at hk
  | cons e rest ih =>
    by_cases he : e.1 = k
    · simp [lookupKey, he]
    · rw [keysOf_cons] at hk
      rcases List.mem_cons.mp hk with h | h
      · exact absurd h.symm he
      · simp only [lookupKey, if_neg he]
        exact ih h

theorem lookupKey_removeKey_self {α : Type} (l : List (Nat × α)) (k : Nat) :
    lookupKey (removeKey l k) k = none := by
  induction l with
  | nil => rfl
  | cons e rest ih =>
    by_cases he : e.1 = k
    · simpa [removeKey, he] using ih
    · simpa [removeKey, lookupKey, he] using ih

theorem lookupKey_removeKey_ne {α : Type} (l : List (Nat × α)) {k q : Nat}
    (hq : q ≠ k) : lookupKey (removeKey l k) q = lookupKey l q := by
  induction l with
  | nil => rfl
  | cons e rest ih =>
    by_cases he : e.1 = k
    · have : e.1 ≠ q := by rw [he]; exact fun h => hq h.symm
      simp only [removeKey, if_pos he, lookupKey, if_neg this]
      exact ih
    · simp only [removeKey, if_neg he, lookupKey]
      by_cases heq : e.1 = q
      · simp [heq]
      · simp only [if_neg heq]
        exact ih

theorem removeKey_sublist {α : Type} (l : List (Nat × α)) (k : Nat) :
    (removeKey l k).Sublist l := by
  induction l with
  | nil => exact List.Sublist.refl _
  | cons e rest ih =>
    by_cases he : e.1 = k
    · simp only [removeKey, if_pos he]
      exact ih.cons _
    · simp only [removeKey, if_neg he]
      exact ih.cons₂ _

theorem keysOf_removeKey_sublist {α : Type} (l : List (Nat × α)) (k : Nat) :
    (keysOf (removeKey l k)).Sublist (keysOf l) :=
  (removeKey_sublist l k).map Prod.fst

theorem mem_keysOf_removeKey {α : Type} {l : List (Nat × α)} {k q : Nat}
    (hq : q ≠ k) (hmem : q ∈ keysOf l) : q ∈ keysOf (removeKey l k) := by
  induction l with
  | nil => simp [keysOf] at hmem
  | cons e rest ih =>
    rw [keysOf_cons] at hmem
    by_cases he : e.1 = k
    · simp only [removeKey, if_pos he]
      rcases List.mem_cons.mp hmem with h | h
      · exact absurd (h.trans he) hq
      · exact ih h
    · simp only [removeKey, if_neg he, keysOf_cons]
      rcases List.mem_cons.mp hmem with h | h
      · exact h ▸ List.mem_cons_self _ _
      · exact List.mem_cons_of_mem _ (ih h)

theorem removeKey_of_not_mem {α : Type} {l : List (Nat × α)} {k : Nat}
    (hk : k ∉ keysOf l) : removeKey l k = l := by
  induction l with
  | nil => rfl
  | cons e rest ih =>
    rw [keysOf_cons] at hk
    have he : e.1 ≠ k := fun h => hk (h ▸ List.mem_cons_self _ _)
    simp only [removeKey, if_neg he]
    rw [ih (fun h => hk (List.mem_cons_of_mem _ h))]

theorem length_removeKey {α : Type} {l : List (Nat × α)} {k : Nat}
    (hmem : k ∈ keysOf l) (hnd : (keysOf l).Nodup) :
    (removeKey l k).length + 1 = l.length := by
  induction l with
  | nil => simp [keysOf] at hmem
  | cons e rest ih =>
    rw [keysOf_cons] at hmem hnd
    by_cases he : e.1 = k
    · have hnot : k ∉ keysOf rest := he ▸ (List.nodup_cons.mp hnd).1
      simp [removeKey, if_pos he, removeKey_of_not_mem hnot]
    · have hk : k ∈ keysOf rest := by
        rcases List.mem_cons.mp hmem with h | h
        · exact absurd h.symm he
        · exact h
      simp only [removeKey, if_neg he, List.length_cons]
      rw [← ih hk (List.nodup_cons.mp hnd).2]

theorem lookupKey_setKey_ne {α : Type} (l : List (Nat × α)) (a : α) {k q : Nat}
    (hq : q ≠ k) : lookupKey (setKey l k a) q = lookupKey l q := by
  induction l with
  | nil => rfl
  | cons e rest ih =>
    by_cases he : e.1 = k
    · have hkq : k ≠ q := fun h => hq h.symm
      have heq : e.1 ≠ q := he ▸ hkq
      simp only [setKey, if_pos he, lookupKey, if_neg hkq, if_neg heq]
      exact ih
    · simp only [setKey, if_neg he, lookupKey]
      by_cases heq : e.1 = q
      · simp [heq]
      · simp only [if_neg heq]
        exact ih

theorem lookupKey_setKey_self {α : Type} {l : List (Nat × α)} (a : α) {k : Nat}
    (hk : k ∈ keysOf l) : lookupKey (setKey l k a) k = some a := by
  induction l with
  | nil => simp [keysOf] at hk
  | cons e rest ih =>
    by_cases he : e.1 = k
    · simp [setKey, if_pos he, lookupKey]
    · rw [keysOf_cons] at hk
      rcases List.mem_cons.mp hk with h | h
      · exact absurd h.symm he
      · simp only [setKey, if_neg he, lookupKey, if_neg he]
        exact ih h

theorem setKey_of_not_mem {α : Type} {l : List (Nat × α)} (a : α) {k : Nat}
    (hk : k ∉ keysOf l) : setKey l k a = l := by
  induction l with
  | nil => rfl
  | cons e rest ih =>
    rw [keysOf_cons] at hk
    have he : e.1 ≠ k := fun h => hk (h ▸ List.mem_cons_self _ _)
    simp only [setKey, if_neg he]
    rw [ih (fun h => hk (List.mem_cons_of_mem _ h))]

theorem keysOf_setKey {α : Type} (l : List (Nat × α)) (k : Nat) (a : α) :
    keysOf (setKey l k a) = keysOf l := by
  induction l with
  | nil => rfl
  | cons e rest ih =>
    by_cases he : e.1 = k
    · simp [setKey, if_pos he, keysOf_cons, ih, he]
    · simp [setKey, if_neg he, keysOf_cons, ih]

theorem length_removeKeys {α : Type} {ks : List Nat} :
    ∀ {l : List (Nat × α)}, ks.Nodup → (keysOf l).Nodup →
      (∀ k ∈ ks, k ∈ keysOf l) →
      (removeKeys l ks).length + ks.length = l.length := by
  induction ks with
  | nil => intro l _ _ _; simp [removeKeys]
  | cons k ks ih =>
    intro l hks hl hmem
    have hkmem : k ∈ keysOf l := hmem k (List.mem_cons_self _ _)
    have h1 : (removeKey l k).length + 1 = l.length := length_removeKey hkmem hl
    have hnd1 : (keysOf (removeKey l k)).Nodup :=
      hl.sublist (keysOf_removeKey_sublist l k)
    have hmem1 : ∀ q ∈ ks, q ∈ keysOf (removeKey l k) := by
      intro q hq
      have hqk : q ≠ k := fun h => (List.nodup_cons.mp hks).1 (h ▸ hq)
      exact mem_keysOf_removeKey hqk (hmem q (List.mem_cons_of_mem _ hq))
    have h2 := ih (List.nodup_cons.mp hks).2 hnd1 hmem1
    simp only [removeKeys, List.length_cons]
    omega

theorem copyReleaseOld_false (h : Heap) (dest : VehiclePropValue) :
    copyReleaseOld h dest false = some h := by
  simp [copyReleaseOld]

theorem copyVehicleProp_eq_payload (mode : AllocMode) (h : Heap)
    (dest src : VehiclePropValue) :
    copyVehicleProp mode h dest src false = copyPayload mode h src := by
  rw [copyVehicleProp, copyReleaseOld_false]

/-- C2: for a buffer-kind source of length 0, `copyVehicleProp` succeeds,
leaves the destination's buffer pointer `NULL` and its length 0, and leaves
the heap unchanged — in particular it never allocates a zero-length buffer. -/
theorem copyVehicleProp_zero_length (mode : AllocMode) (h : Heap)
    (dest src : VehiclePropValue)
    (hty : src.value_type = VEHICLE_VALUE_TYPE_BYTES ∨
           src.value_type = VEHICLE_VALUE_TYPE_STRING)
    (hlen : src.str_len = 0) :
    copyVehicleProp mode h dest src false =
      Res.ok (h, { src with str_data := 0 }, NO_ERROR) ∧
    ({ src with str_data := 0 } : VehiclePropValue).str_data = 0 ∧
    ({ src with str_data := 0 } : VehiclePropValue).str_len = 0 := by
  refine ⟨?_, rfl, by simpa using hlen⟩
  rw [copyVehicleProp_eq_payload]
  simp [copyPayload, hty, hlen]

theorem copyVehicleProp_zero_length_witness :
    copyVehicleProp AllocMode.assertMode demoHeap zeroValue
        { demoSrc with str_data := 0, str_len := 0 } false =
      Res.ok (demoHeap,
        { { demoSrc with str_data := 0, str_len := 0 } with str_data := 0 },
        NO_ERROR) ∧
    ({ { demoSrc with str_data := 0, str_len := 0 } with
        str_data := 0 } : VehiclePropValue).str_data = 0 ∧
    ({ { demoSrc with str_data := 0, str_len := 0 } with
        str_data := 0 } : VehiclePropValue).str_len = 0 :=
  copyVehicleProp_zero_length AllocMode.assertMode demoHeap zeroValue
    { demoSrc with str_data := 0, str_len := 0 } (by decide) (by decide)

/-- C6: a list container constructed with its ownership flag false touches
nothing on destruction: the heap is returned unchanged, so every contained
element's record and buffer stay live exactly as before (and the borrowed
`List` object of `VehiclePropValueListHolder` survives as well, since the
destructor body is skipped entirely). -/
theorem holders_nonowning_noop (h : Heap) (mListPtr : Nat) (cfgElems : List Nat) :
    VehiclePropValueListHolder.dtor h mListPtr false = some h ∧
    VehiclePropertiesHolder.dtor h cfgElems false = some h := by
  constructor
  · simp [VehiclePropValueListHolder.dtor]
  · simp [VehiclePropertiesHolder.dtor]

/-- C8: the `ScopedVehiclePropValue` constructor zeroes every field of the
embedded record (no payload, no buffer); the destructor is a single
invocation of the `deleteMembers` body on the embedded value, identical on
every exit path (C++ runs a destructor exactly once when control leaves the
scope, whichever path is taken); destroying a freshly constructed scoped
value frees nothing. -/
theorem scopedValue_lifecycle :
    (scopedValueCtor.prop = 0 ∧ scopedValueCtor.value_type = 0 ∧
     scopedValueCtor.timestamp = 0 ∧ scopedValueCtor.zone = 0 ∧
     scopedValueCtor.int32_value = 0 ∧ scopedValueCtor.str_data = 0 ∧
     scopedValueCtor.str_len = 0) ∧
    (∀ (h : Heap) (v : VehiclePropValue) (e e' : ExitPath),
       scopedValueDtor h v e = scopedValueDtor h v e') ∧
    (∀ (h : Heap) (v : VehiclePropValue) (e : ExitPath),
       scopedValueDtor h v e = deleteMembersVal h v) ∧
    (∀ (h : Heap) (e : ExitPath), scopedValueDtor h scopedValueCtor e = some h) := by
  refine ⟨⟨rfl, rfl, rfl, rfl, rfl, rfl, rfl⟩, ?_, ?_, ?_⟩
  · intro h v e e'
    cases e <;> cases e' <;> rfl
  · intro h v e
    cases e <;> rfl
  · intro h e
    cases e <;>
      simp [scopedValueDtor, deleteMembersVal, scopedValueCtor, zeroValue,
        VEHICLE_VALUE_TYPE_BYTES, VEHICLE_VALUE_TYPE_STRING]

/-- C10: `VehiclePropValueUtil::deleteMembers` checks its pointer and treats
`NULL` as a safe no-op; `VehiclePropertiesUtil::deleteMembers` has no such
check and dereferences its argument, so on a well-formed heap a `NULL`
config pointer is undefined behaviour — non-null is a precondition. -/
theorem deleteMembers_null_contrast :
    (∀ h : Heap, VehiclePropValueUtil.deleteMembers h 0 = some h) ∧
    (∀ h : Heap, Heap.WF h → VehiclePropertiesUtil.deleteMembers h 0 = none) := by
  constructor
  · intro h
    simp [VehiclePropValueUtil.deleteMembers]
  · intro h hWF
    obtain ⟨-, -, -, -, -, -, -, hbC, -⟩ := hWF
    have h0 : (0 : Nat) ∉ keysOf h.cfgs := by
      intro hmem
      exact absurd (hbC 0 hmem).1 (lt_irrefl 0)
    simp [VehiclePropertiesUtil.deleteMembers, lookupKey_eq_none_of_not_mem h0]

theorem deleteMembers_null_contrast_witness :
    VehiclePropValueUtil.deleteMembers emptyHeap 0 = some emptyHeap ∧
    VehiclePropertiesUtil.deleteMembers emptyHeap 0 = none :=
  ⟨deleteMembers_null_contrast.1 emptyHeap,
   deleteMembers_null_contrast.2 emptyHeap (by decide)⟩

/-- C5: `VehiclePropValueUtil::deleteMembers` on a live record of a scalar
kind (neither `BYTES` nor `STRING`) returns the heap unchanged — it frees
nothing, and the record behind `p` keeps every field; only for `BYTES` or
`STRING` does it free the record's buffer. -/
theorem deleteMembers_scalar_noop (h : Heap) (p : Nat) (v : VehiclePropValue)
    (hWF : Heap.WF h) (hlook : lookupKey h.recs p = some v) :
    (v.value_type ≠ VEHICLE_VALUE_TYPE_BYTES →
     v.value_type ≠ VEHICLE_VALUE_TYPE_STRING →
      VehiclePropValueUtil.deleteMembers h p = some h) ∧
    ((v.value_type = VEHICLE_VALUE_TYPE_BYTES ∨
      v.value_type = VEHICLE_VALUE_TYPE_STRING) →
      v.str_data ≠ 0 → (lookupKey h.bufs v.str_data).isSome = true →
      VehiclePropValueUtil.deleteMembers h p =
        some { h with bufs := removeKey h.bufs v.str_data }) := by
  have hp : p ≠ 0 := by
    obtain ⟨-, -, -, -, -, -, hbR, -, -⟩ := hWF
    have := (hbR p (mem_keysOf_of_lookupKey hlook)).1
    omega
  constructor
  · intro hb hs
    have hneg : ¬ (v.value_type = VEHICLE_VALUE_TYPE_BYTES ∨
        v.value_type = VEHICLE_VALUE_TYPE_STRING) := by
      intro hor
      rcases hor with h1 | h1
      · exact hb h1
      · exact hs h1
    simp [VehiclePropValueUtil.deleteMembers, hp, hlook, deleteMembersVal, hneg]
  · intro hty hsd hsome
    rcases Option.isSome_iff_exists.mp hsome with ⟨bs, hbs⟩
    simp [VehiclePropValueUtil.deleteMembers, hp, hlook, deleteMembersVal, hty,
      freeBuf, hsd, hbs]

theorem deleteMembers_scalar_noop_witness :
    VehiclePropValueUtil.deleteMembers demoHeap2 6 = some demoHeap2 ∧
    VehiclePropValueUtil.deleteMembers demoHeap2 4 =
      some { demoHeap2 with bufs := removeKey demoHeap2.bufs demoSrc.str_data } :=
  ⟨(deleteMembers_scalar_noop demoHeap2 6
      { demoSrc with value_type := 16, str_data := 0, str_len := 0 }
      (by decide) (by decide)).1 (by decide) (by decide),
   (deleteMembers_scalar_noop demoHeap2 4 demoSrc (by decide) (by decide)).2
      (by decide) (by decide) (by decide)⟩

theorem allocBuf_cases (h : Heap) (len : Nat) (hnp : 0 < h.nextPtr) :
    allocBuf h len = ({ h with oracle := h.oracle.tail }, 0) ∨
    (allocBuf h len =
      ({ h with
          oracle := h.oracle.tail
          nextPtr := h.nextPtr + 1
          bufs := (h.nextPtr, List.replicate len 0) :: h.bufs }, h.nextPtr) ∧
      h.nextPtr ≠ 0) := by
  have hnz : h.nextPtr ≠ 0 := by omega
  rcases ho : h.oracle with _ | ⟨b, rest⟩
  · right
    refine ⟨?_, hnz⟩
    simp [allocBuf, ho]
  · cases b
    · left
      simp [allocBuf, ho]
    · right
      refine ⟨?_, hnz⟩
      simp [allocBuf, ho]

theorem readBuf_length {h : Heap} {p len : Nat} {bs : List Nat}
    (hr : readBuf h p len = some bs) : bs.length = len := by
  unfold readBuf at hr
  split at hr
  · simp at hr
  · split at hr
    · split at hr
      · cases hr
        simp only [List.length_take]
        omega
      · simp at hr
    · simp at hr

theorem copyPayload_preserves (mode : AllocMode) (h : Heap)
    (src : VehiclePropValue) (h' : Heap) (d : VehiclePropValue) (s : Int)
    (hnp : 0 < h.nextPtr)
    (hok : copyPayload mode h src = Res.ok (h', d, s)) :
    ∀ q, q < h.nextPtr → lookupKey h'.bufs q = lookupKey h.bufs q := by
  intro q hq
  have hqne : q ≠ h.nextPtr := by omega
  simp only [copyPayload] at hok
  by_cases hty : src.value_type = VEHICLE_VALUE_TYPE_BYTES ∨
      src.value_type = VEHICLE_VALUE_TYPE_STRING
  · rw [if_pos hty] at hok
    by_cases hpos : 0 < src.str_len
    · rw [if_pos hpos] at hok
      rcases allocBuf_cases h src.str_len hnp with hA | ⟨hA, hnz⟩
      · rw [hA] at hok
        cases mode
        · simp at hok
        · simp at hok
          obtain ⟨hh, -, -⟩ := hok
          rw [← hh]
      · rw [hA] at hok
        rw [if_neg hnz] at hok
        rcases hr : readBuf
            { h with
                oracle := h.oracle.tail
                nextPtr := h.nextPtr + 1
                bufs := (h.nextPtr, List.replicate src.str_len 0) :: h.bufs }
            src.str_data src.str_len with _ | bs
        · rw [hr] at hok
          simp at hok
        · rw [hr] at hok
          have hlook : lookupKey ((h.nextPtr, List.replicate src.str_len 0) :: h.bufs)
              h.nextPtr = some (List.replicate src.str_len 0) := by
            simp [lookupKey]
          have hlen : bs.length = src.str_len := readBuf_length hr
          have hcond : bs.length ≤ (List.replicate src.str_len (0 : Nat)).length := by
            simp [hlen]
          simp only [writeBuf, hlook, if_pos hcond] at hok
          simp only [Res.ok.injEq, Prod.mk.injEq] at hok
          obtain ⟨hh, -, -⟩ := hok
          rw [← hh]
          show lookupKey (setKey ((h.nextPtr, List.replicate src.str_len 0) :: h.bufs)
            h.nextPtr (bs ++ (List.replicate src.str_len 0).drop bs.length)) q =
            lookupKey h.bufs q
          rw [lookupKey_setKey_ne _ _ hqne]
          simp only [lookupKey]
          rw [if_neg (by omega : ¬ h.nextPtr = q)]
    · rw [if_neg hpos] at hok
      simp only [Res.ok.injEq, Prod.mk.injEq] at hok
      obtain ⟨hh, -, -⟩ := hok
      rw [← hh]
  · rw [if_neg hty] at hok
    simp only [Res.ok.injEq, Prod.mk.injEq] at hok
    obtain ⟨hh, -, -⟩ := hok
    rw [← hh]

theorem copyPayload_success (mode : AllocMode) (h : Heap)
    (src : VehiclePropValue) (bytes : List Nat)
    (hnp : 0 < h.nextPtr)
    (hb : ∀ p ∈ keysOf h.bufs, 0 < p ∧ p < h.nextPtr)
    (hty : src.value_type = VEHICLE_VALUE_TYPE_BYTES ∨
           src.value_type = VEHICLE_VALUE_TYPE_STRING)
    (hpos : 0 < src.str_len)
    (hbuf : lookupKey h.bufs src.str_data = some bytes)
    (hblen : bytes.length = src.str_len)
    (ho : h.oracle = []) :
    copyPayload mode h src =
      Res.ok ({ h with
                  nextPtr := h.nextPtr + 1
                  bufs := (h.nextPtr, bytes) :: h.bufs },
        { src with str_data := h.nextPtr }, NO_ERROR) := by
  have hmem := mem_keysOf_of_lookupKey hbuf
  have hsd0 : src.str_data ≠ 0 := by
    have := (hb _ hmem).1
    omega
  have hsdlt : src.str_data < h.nextPtr := (hb _ hmem).2
  have hnz : h.nextPtr ≠ 0 := by omega
  have hA : allocBuf h src.str_len =
      ({ h with
          nextPtr := h.nextPtr + 1
          bufs := (h.nextPtr, List.replicate src.str_len 0) :: h.bufs },
       h.nextPtr) := by
    simp [allocBuf, ho]
  have hne : h.nextPtr ≠ src.str_data := by omega
  have htake : bytes.take src.str_len = bytes := by
    rw [← hblen]
    exact List.take_length bytes
  have hRead : readBuf
      { h with
          nextPtr := h.nextPtr + 1
          bufs := (h.nextPtr, List.replicate src.str_len 0) :: h.bufs }
      src.str_data src.str_len = some bytes := by
    simp only [readBuf, if_neg hsd0, lookupKey]
    rw [if_neg hne, hbuf]
    simp [hblen, htake]
  have hfresh : h.nextPtr ∉ keysOf h.bufs := by
    intro hmm
    have := (hb _ hmm).2
    omega
  have hdrop : (List.replicate src.str_len (0 : Nat)).drop bytes.length = [] := by
    rw [hblen]
    have := List.drop_length (List.replicate src.str_len (0 : Nat))
    simp only [List.length_replicate] at this
    exact this
  have hWrite : writeBuf
      { h with
          nextPtr := h.nextPtr + 1
          bufs := (h.nextPtr, List.replicate src.str_len 0) :: h.bufs }
      h.nextPtr bytes =
      some { h with
              nextPtr := h.nextPtr + 1
              bufs := (h.nextPtr, bytes) :: h.bufs } := by
    have hlook : lookupKey ((h.nextPtr, List.replicate src.str_len 0) :: h.bufs)
        h.nextPtr = some (List.replicate src.str_len 0) := by
      simp [lookupKey]
    have hcond : bytes.length ≤ (List.replicate src.str_len (0 : Nat)).length := by
      simp [hblen]
    simp only [writeBuf, hlook, if_pos hcond]
    rw [hdrop, List.append_nil]
    simp [setKey, setKey_of_not_mem _ hfresh]
  simp only [copyPayload]
  rw [if_pos hty, if_pos hpos, hA]
  simp only [if_neg hnz]
  rw [hRead]
  simp [hWrite]

/-- C1: deep copy of a buffer-kind value with a live buffer of positive
length `L`: `copyVehicleProp` succeeds with `NO_ERROR`, the destination is
the source record except for a fresh, non-null buffer pointer distinct from
the source's, the fresh buffer holds exactly the source's bytes, the source
buffer is untouched, and overwriting the source buffer afterwards leaves the
destination's buffer unchanged. -/
theorem copyVehicleProp_deep_copy (mode : AllocMode) (h : Heap)
    (dest src : VehiclePropValue) (bytes : List Nat)
    (hWF : Heap.WF h)
    (hty : src.value_type = VEHICLE_VALUE_TYPE_BYTES ∨
           src.value_type = VEHICLE_VALUE_TYPE_STRING)
    (hpos : 0 < src.str_len)
    (hbuf : lookupKey h.bufs src.str_data = some bytes)
    (hblen : bytes.length = src.str_len)
    (ho : h.oracle = []) :
    ∃ pnew h',
      copyVehicleProp mode h dest src false =
        Res.ok (h', { src with str_data := pnew }, NO_ERROR) ∧
      pnew ≠ src.str_data ∧ pnew ≠ 0 ∧
      lookupKey h'.bufs pnew = some bytes ∧
      lookupKey h'.bufs src.str_data = some bytes ∧
      (∀ nb h2, writeBuf h' src.str_data nb = some h2 →
        lookupKey h2.bufs pnew = some bytes) := by
  obtain ⟨hnp, -, -, -, -, hbB, -, -, -⟩ := hWF
  have hmem := mem_keysOf_of_lookupKey hbuf
  have hsdlt : src.str_data < h.nextPtr := (hbB _ hmem).2
  have hne : ¬ h.nextPtr = src.str_data := by omega
  refine ⟨h.nextPtr,
    { h with
        nextPtr := h.nextPtr + 1
        bufs := (h.nextPtr, bytes) :: h.bufs }, ?_, ?_, ?_, ?_, ?_, ?_⟩
  · rw [copyVehicleProp_eq_payload]
    exact copyPayload_success mode h src bytes hnp hbB hty hpos hbuf hblen ho
  · omega
  · omega
  · simp [lookupKey]
  · simp only [lookupKey]
    rw [if_neg hne]
    exact hbuf
  · intro nb h2 hw
    have hl : lookupKey ((h.nextPtr, bytes) :: h.bufs) src.str_data = some bytes := by
      simp only [lookupKey]
      rw [if_neg hne]
      exact hbuf
    simp only [writeBuf, hl] at hw
    split at hw
    · have hh2 := Option.some.inj hw
      rw [← hh2]
      show lookupKey (setKey ((h.nextPtr, bytes) :: h.bufs) src.str_data
        (nb ++ bytes.drop nb.length)) h.nextPtr = some bytes
      rw [lookupKey_setKey_ne _ _ hne]
      simp [lookupKey]
    · simp at hw

theorem copyVehicleProp_deep_copy_witness :
    ∃ pnew h',
      copyVehicleProp AllocMode.assertMode demoHeap zeroValue demoSrc false =
        Res.ok (h', { demoSrc with str_data := pnew }, NO_ERROR) ∧
      pnew ≠ demoSrc.str_data ∧ pnew ≠ 0 ∧
      lookupKey h'.bufs pnew = some demoBytes ∧
      lookupKey h'.bufs demoSrc.str_data = some demoBytes ∧
      (∀ nb h2, writeBuf h' demoSrc.str_data nb = some h2 →
        lookupKey h2.bufs pnew = some demoBytes) :=
  copyVehicleProp_deep_copy AllocMode.assertMode demoHeap zeroValue demoSrc
    demoBytes (by decide) (by decide) (by decide) (by decide) (by decide) rfl

/-- C3: on a well-formed heap, with `deleteOldData` set, the destination's
old buffer is freed by `copyVehicleProp` exactly when the destination holds
one (`data != NULL && len > 0`); when the destination holds none, or when
the flag is unset, every pre-existing buffer survives with its contents. -/
theorem copyVehicleProp_pre_release (mode : AllocMode) (h : Heap)
    (dest src : VehiclePropValue) (hWF : Heap.WF h) :
    ((dest.str_data ≠ 0 ∧ dest.str_len > 0) →
      ∀ h' d s, copyVehicleProp mode h dest src true = Res.ok (h', d, s) →
        lookupKey h'.bufs dest.str_data = none) ∧
    (¬ (dest.str_data ≠ 0 ∧ dest.str_len > 0) →
      ∀ h' d s, copyVehicleProp mode h dest src true = Res.ok (h', d, s) →
        ∀ q, q ∈ keysOf h.bufs → lookupKey h'.bufs q = lookupKey h.bufs q) ∧
    (∀ h' d s, copyVehicleProp mode h dest src false = Res.ok (h', d, s) →
      ∀ q, q ∈ keysOf h.bufs → lookupKey h'.bufs q = lookupKey h.bufs q) := by
  obtain ⟨hnp, -, -, -, -, hbB, -, -, -⟩ := hWF
  refine ⟨?_, ?_, ?_⟩
  · rintro ⟨hd0, hdl⟩ h' d s hok
    have hcond : (true : Bool) = true ∧ dest.str_data ≠ 0 ∧ dest.str_len > 0 :=
      ⟨rfl, hd0, hdl⟩
    rcases hfb : lookupKey h.bufs dest.str_data with _ | bs
    · rw [copyVehicleProp, copyReleaseOld, if_pos hcond, freeBuf, if_neg hd0,
        hfb] at hok
      simp at hok
    · have hrel : copyVehicleProp mode h dest src true =
          copyPayload mode { h with bufs := removeKey h.bufs dest.str_data } src := by
        rw [copyVehicleProp, copyReleaseOld, if_pos hcond, freeBuf, if_neg hd0, hfb]
      rw [hrel] at hok
      have hlt : dest.str_data < h.nextPtr :=
        (hbB _ (mem_keysOf_of_lookupKey hfb)).2
      have hpres := copyPayload_preserves mode
        { h with bufs := removeKey h.bufs dest.str_data } src h' d s hnp hok
      rw [hpres dest.str_data hlt]
      exact lookupKey_removeKey_self h.bufs dest.str_data
  · intro hnot h' d s hok q hq
    have hrel : copyVehicleProp mode h dest src true = copyPayload mode h src := by
      rw [copyVehicleProp, copyReleaseOld,
        if_neg (fun hc => hnot ⟨hc.2.1, hc.2.2⟩)]
    rw [hrel] at hok
    exact copyPayload_preserves mode h src h' d s hnp hok q (hbB q hq).2
  · intro h' d s hok q hq
    rw [copyVehicleProp_eq_payload] at hok
    exact copyPayload_preserves mode h src h' d s hnp hok q (hbB q hq).2

theorem copyVehicleProp_pre_release_witness :
    ((demoSrc.str_data ≠ 0 ∧ demoSrc.str_len > 0) →
      ∀ h' d s, copyVehicleProp AllocMode.assertMode demoHeap demoSrc
          { demoSrc with value_type := 16 } true = Res.ok (h', d, s) →
        lookupKey h'.bufs demoSrc.str_data = none) ∧
    (¬ (demoSrc.str_data ≠ 0 ∧ demoSrc.str_len > 0) →
      ∀ h' d s, copyVehicleProp AllocMode.assertMode demoHeap demoSrc
          { demoSrc with value_type := 16 } true = Res.ok (h', d, s) →
        ∀ q, q ∈ keysOf demoHeap.bufs →
          lookupKey h'.bufs q = lookupKey demoHeap.bufs q) ∧
    (∀ h' d s, copyVehicleProp AllocMode.assertMode demoHeap demoSrc
        { demoSrc with value_type := 16 } false = Res.ok (h', d, s) →
      ∀ q, q ∈ keysOf demoHeap.bufs →
        lookupKey h'.bufs q = lookupKey demoHeap.bufs q) :=
  copyVehicleProp_pre_release AllocMode.assertMode demoHeap demoSrc
    { demoSrc with value_type := 16 } (by decide)

theorem elemBufs_cons (h : Heap) (p : Nat) (rest : List Nat) :
    elemBufs h (p :: rest) =
      match elemBuf h p with
      | some b => b :: elemBufs h rest
      | none => elemBufs h rest := by
  simp only [elemBufs, List.filterMap_cons]
  rcases elemBuf h p with _ | b <;> rfl

theorem destroyValueElems_spec (ps : List Nat) :
    ∀ (h : Heap),
      (∀ p ∈ keysOf h.recs, 0 < p) →
      ps.Nodup → (elemBufs h ps).Nodup →
      (∀ p ∈ ps, valueElemOk h p = true) →
      destroyValueElems h ps =
        some { h with
                 recs := removeKeys h.recs ps
                 bufs := removeKeys h.bufs (elemBufs h ps) } := by
  induction ps with
  | nil =>
    intro h hp0 hnd hbnd hok
    simp [destroyValueElems, removeKeys, elemBufs]
  | cons p rest ih =>
    intro h hp0 hnd hbnd hok
    have hokp := hok p (List.mem_cons_self _ _)
    rcases hlook : lookupKey h.recs p with _ | v
    · rw [valueElemOk] at hokp
      rw [hlook] at hokp
      simp at hokp
    · rw [valueElemOk] at hokp
      rw [hlook] at hokp
      have hp : p ≠ 0 := by
        have := hp0 p (mem_keysOf_of_lookupKey hlook)
        omega
      have hpn : p ∉ rest := (List.nodup_cons.mp hnd).1
      have hndr : rest.Nodup := (List.nodup_cons.mp hnd).2
      by_cases hbk : v.value_type = VEHICLE_VALUE_TYPE_BYTES ∨
          v.value_type = VEHICLE_VALUE_TYPE_STRING
      · by_cases hd0 : v.str_data = 0
        · -- buffer kind, null buffer pointer: delete[] NULL is a no-op
          have hdel : VehiclePropValueUtil.deleteMembers h p = some h := by
            simp [VehiclePropValueUtil.deleteMembers, hp, hlook,
              deleteMembersVal, hbk, freeBuf, hd0]
          have helem : elemBuf h p = none := by
            simp [elemBuf, hlook, hd0]
          have hfr : freeRec h p = some { h with recs := removeKey h.recs p } := by
            simp [freeRec, hp, hlook]
          have hbeq : elemBufs { h with recs := removeKey h.recs p } rest =
              elemBufs h rest := by
            apply List.filterMap_congr
            intro q hq
            have hqp : q ≠ p := fun he => hpn (he ▸ hq)
            simp only [elemBuf]
            rw [lookupKey_removeKey_ne _ hqp]
          have hih := ih { h with recs := removeKey h.recs p }
            (fun q hq => hp0 q ((keysOf_removeKey_sublist h.recs p).subset hq))
            hndr
            (by rw [hbeq]; rw [elemBufs_cons, helem] at hbnd; exact hbnd)
            (by
              intro q hq
              have hqp : q ≠ p := fun he => hpn (he ▸ hq)
              have hokq := hok q (List.mem_cons_of_mem _ hq)
              rw [valueElemOk] at hokq
              rw [valueElemOk]
              rw [lookupKey_removeKey_ne _ hqp]
              exact hokq)
          rw [destroyValueElems]
          simp only [hdel, hfr, hih, hbeq, elemBufs_cons, helem, removeKeys]
        · -- buffer kind, live buffer: delete[] removes the block
          have hokp2 : (lookupKey h.bufs v.str_data).isSome = true := by
            have hx : (if (v.value_type = VEHICLE_VALUE_TYPE_BYTES ∨
                v.value_type = VEHICLE_VALUE_TYPE_STRING) ∧ v.str_data ≠ 0 then
                (lookupKey h.bufs v.str_data).isSome else true) = true := hokp
            rw [if_pos ⟨hbk, hd0⟩] at hx
            exact hx
          rcases Option.isSome_iff_exists.mp hokp2 with ⟨bs, hbs⟩
          have hdel : VehiclePropValueUtil.deleteMembers h p =
              some { h with bufs := removeKey h.bufs v.str_data } := by
            simp [VehiclePropValueUtil.deleteMembers, hp, hlook,
              deleteMembersVal, hbk, freeBuf, hd0, hbs]
          have helem : elemBuf h p = some v.str_data := by
            simp [elemBuf, hlook, hbk, hd0]
          have hfr : freeRec { h with bufs := removeKey h.bufs v.str_data } p =
              some { h with
                       bufs := removeKey h.bufs v.str_data
                       recs := removeKey h.recs p } := by
            simp [freeRec, hp, hlook]
          have hdn : v.str_data ∉ elemBufs h rest := by
            rw [elemBufs_cons, helem] at hbnd
            exact (List.nodup_cons.mp hbnd).1
          have hbeq : elemBufs { h with
              bufs := removeKey h.bufs v.str_data
              recs := removeKey h.recs p } rest = elemBufs h rest := by
            apply List.filterMap_congr
            intro q hq
            have hqp : q ≠ p := fun he => hpn (he ▸ hq)
            simp only [elemBuf]
            rw [lookupKey_removeKey_ne _ hqp]
          have hih := ih { h with
              bufs := removeKey h.bufs v.str_data
              recs := removeKey h.recs p }
            (fun q hq => hp0 q ((keysOf_removeKey_sublist h.recs p).subset hq))
            hndr
            (by
              rw [hbeq]
              rw [elemBufs_cons, helem] at hbnd
              exact (List.nodup_cons.mp hbnd).2)
            (by
              intro q hq
              have hqp : q ≠ p := fun he => hpn (he ▸ hq)
              have hokq := hok q (List.mem_cons_of_mem _ hq)
              rw [valueElemOk] at hokq
              rw [valueElemOk]
              rw [lookupKey_removeKey_ne _ hqp]
              rcases hlq : lookupKey h.recs q with _ | vq
              · rw [hlq] at hokq
                simp at hokq
              · have hokq2 : (if (vq.value_type = VEHICLE_VALUE_TYPE_BYTES ∨
                    vq.value_type = VEHICLE_VALUE_TYPE_STRING) ∧ vq.str_data ≠ 0 then
                    (lookupKey h.bufs vq.str_data).isSome else true) = true := by
                  rw [hlq] at hokq
                  exact hokq
                show (if (vq.value_type = VEHICLE_VALUE_TYPE_BYTES ∨
                    vq.value_type = VEHICLE_VALUE_TYPE_STRING) ∧ vq.str_data ≠ 0 then
                    (lookupKey (removeKey h.bufs v.str_data) vq.str_data).isSome
                  else true) = true
                by_cases hcq : (vq.value_type = VEHICLE_VALUE_TYPE_BYTES ∨
                    vq.value_type = VEHICLE_VALUE_TYPE_STRING) ∧ vq.str_data ≠ 0
                · rw [if_pos hcq] at hokq2
                  rw [if_pos hcq]
                  have hqb : vq.str_data ∈ elemBufs h rest := by
                    simp only [elemBufs]
                    refine List.mem_filterMap.mpr ⟨q, hq, ?_⟩
                    simp only [elemBuf, hlq]
                    rw [if_pos hcq]
                  have hbne : vq.str_data ≠ v.str_data :=
                    fun he => hdn (he ▸ hqb)
                  rw [lookupKey_removeKey_ne _ hbne]
                  exact hokq2
                · rw [if_neg hcq])
          rw [destroyValueElems]
          simp only [hdel, hfr, hih, hbeq, elemBufs_cons, helem, removeKeys]
      · -- scalar kind: deleteMembers is a no-op
        have hdel : VehiclePropValueUtil.deleteMembers h p = some h := by
          simp [VehiclePropValueUtil.deleteMembers, hp, hlook,
            deleteMembersVal, hbk]
        have helem : elemBuf h p = none := by
          simp [elemBuf, hlook, hbk]
        have hfr : freeRec h p = some { h with recs := removeKey h.recs p } := by
          simp [freeRec, hp, hlook]
        have hbeq : elemBufs { h with recs := removeKey h.recs p } rest =
            elemBufs h rest := by
          apply List.filterMap_congr
          intro q hq
          have hqp : q ≠ p := fun he => hpn (he ▸ hq)
          simp only [elemBuf]
          rw [lookupKey_removeKey_ne _ hqp]
        have hih := ih { h with recs := removeKey h.recs p }
          (fun q hq => hp0 q ((keysOf_removeKey_sublist h.recs p).subset hq))
          hndr
          (by rw [hbeq]; rw [elemBufs_cons, helem] at hbnd; exact hbnd)
          (by
            intro q hq
            have hqp : q ≠ p := fun he => hpn (he ▸ hq)
            have hokq := hok q (List.mem_cons_of_mem _ hq)
            rw [valueElemOk] at hokq
            rw [valueElemOk]
            rw [lookupKey_removeKey_ne _ hqp]
            exact hokq)
        rw [destroyValueElems]
        simp only [hdel, hfr, hih, hbeq, elemBufs_cons, helem, removeKeys]

theorem cfgBufs_cons (h : Heap) (p : Nat) (rest : List Nat) :
    cfgBufs h (p :: rest) =
      match cfgBuf h p with
      | some b => b :: cfgBufs h rest
      | none => cfgBufs h rest := by
  simp only [cfgBufs, List.filterMap_cons]
  rcases cfgBuf h p with _ | b <;> rfl

theorem destroyCfgElems_spec (ps : List Nat) :
    ∀ (h : Heap),
      (∀ p ∈ keysOf h.cfgs, 0 < p) →
      ps.Nodup → (cfgBufs h ps).Nodup →
      (∀ p ∈ ps, cfgElemOk h p = true) →
      destroyCfgElems h ps =
        some { h with
                 cfgs := removeKeys h.cfgs ps
                 bufs := removeKeys h.bufs (cfgBufs h ps) } := by
  induction ps with
  | nil =>
    intro h hp0 hnd hbnd hok
    simp [destroyCfgElems, removeKeys, cfgBufs]
  | cons p rest ih =>
    intro h hp0 hnd hbnd hok
    have hokp := hok p (List.mem_cons_self _ _)
    rw [cfgElemOk] at hokp
    rcases hlook : lookupKey h.cfgs p with _ | c
    · rw [hlook] at hokp
      simp at hokp
    · rw [hlook] at hokp
      have hp : p ≠ 0 := by
        have := hp0 p (mem_keysOf_of_lookupKey hlook)
        omega
      have hpn : p ∉ rest := (List.nodup_cons.mp hnd).1
      have hndr : rest.Nodup := (List.nodup_cons.mp hnd).2
      by_cases hck : c.config_string_data ≠ 0 ∧ c.config_string_len > 0
      · -- the config owns a string: delete[] removes it
        have hokp2 : (lookupKey h.bufs c.config_string_data).isSome = true := by
          have hx : (if c.config_string_data ≠ 0 ∧ c.config_string_len > 0 then
              (lookupKey h.bufs c.config_string_data).isSome else true) = true := hokp
          rw [if_pos hck] at hx
          exact hx
        rcases Option.isSome_iff_exists.mp hokp2 with ⟨bs, hbs⟩
        have hdel : VehiclePropertiesUtil.deleteMembers h p =
            some { h with bufs := removeKey h.bufs c.config_string_data } := by
          simp [VehiclePropertiesUtil.deleteMembers, hlook, hck, freeBuf,
            hck.1, hbs]
        have helem : cfgBuf h p = some c.config_string_data := by
          simp only [cfgBuf, hlook]
          rw [if_pos hck]
        have hfr : freeCfg { h with bufs := removeKey h.bufs c.config_string_data } p =
            some { h with
                     bufs := removeKey h.bufs c.config_string_data
                     cfgs := removeKey h.cfgs p } := by
          simp [freeCfg, hp, hlook]
        have hdn : c.config_string_data ∉ cfgBufs h rest := by
          rw [cfgBufs_cons, helem] at hbnd
          exact (List.nodup_cons.mp hbnd).1
        have hbeq : cfgBufs { h with
            bufs := removeKey h.bufs c.config_string_data
            cfgs := removeKey h.cfgs p } rest = cfgBufs h rest := by
          apply List.filterMap_congr
          intro q hq
          have hqp : q ≠ p := fun he => hpn (he ▸ hq)
          simp only [cfgBuf]
          rw [lookupKey_removeKey_ne _ hqp]
        have hih := ih { h with
            bufs := removeKey h.bufs c.config_string_data
            cfgs := removeKey h.cfgs p }
          (fun q hq => hp0 q ((keysOf_removeKey_sublist h.cfgs p).subset hq))
          hndr
          (by
            rw [hbeq]
            rw [cfgBufs_cons, helem] at hbnd
            exact (List.nodup_cons.mp hbnd).2)
          (by
            intro q hq
            have hqp : q ≠ p := fun he => hpn (he ▸ hq)
            have hokq := hok q (List.mem_cons_of_mem _ hq)
            rw [cfgElemOk] at hokq
            rw [cfgElemOk]
            rw [lookupKey_removeKey_ne _ hqp]
            rcases hlq : lookupKey h.cfgs q with _ | cq
            · rw [hlq] at hokq
              simp at hokq
            · have hokq2 : (if cq.config_string_data ≠ 0 ∧ cq.config_string_len > 0 then
                  (lookupKey h.bufs cq.config_string_data).isSome else true) = true := by
                rw [hlq] at hokq
                exact hokq
              show (if cq.config_string_data ≠ 0 ∧ cq.config_string_len > 0 then
                  (lookupKey (removeKey h.bufs c.config_string_data)
                    cq.config_string_data).isSome
                else true) = true
              by_cases hcq : cq.config_string_data ≠ 0 ∧ cq.config_string_len > 0
              · rw [if_pos hcq] at hokq2
                rw [if_pos hcq]
                have hqb : cq.config_string_data ∈ cfgBufs h rest := by
                  simp only [cfgBufs]
                  refine List.mem_filterMap.mpr ⟨q, hq, ?_⟩
                  simp only [cfgBuf, hlq]
                  rw [if_pos hcq]
                have hbne : cq.config_string_data ≠ c.config_string_data :=
                  fun he => hdn (he ▸ hqb)
                rw [lookupKey_removeKey_ne _ hbne]
                exact hokq2
              · rw [if_neg hcq])
        rw [destroyCfgElems]
        simp only [hdel, hfr, hih, hbeq, cfgBufs_cons, helem, removeKeys]
      · -- no owned string: deleteMembers leaves the heap alone
        have hdel : VehiclePropertiesUtil.deleteMembers h p = some h := by
          simp only [VehiclePropertiesUtil.deleteMembers, hlook]
          rw [if_neg hck]
        have helem : cfgBuf h p = none := by
          simp only [cfgBuf, hlook]
          rw [if_neg hck]
        have hfr : freeCfg h p = some { h with cfgs := removeKey h.cfgs p } := by
          simp [freeCfg, hp, hlook]
        have hbeq : cfgBufs { h with cfgs := removeKey h.cfgs p } rest =
            cfgBufs h rest := by
          apply List.filterMap_congr
          intro q hq
          have hqp : q ≠ p := fun he => hpn (he ▸ hq)
          simp only [cfgBuf]
          rw [lookupKey_removeKey_ne _ hqp]
        have hih := ih { h with cfgs := removeKey h.cfgs p }
          (fun q hq => hp0 q ((keysOf_removeKey_sublist h.cfgs p).subset hq))
          hndr
          (by rw [hbeq]; rw [cfgBufs_cons, helem] at hbnd; exact hbnd)
          (by
            intro q hq
            have hqp : q ≠ p := fun he => hpn (he ▸ hq)
            have hokq := hok q (List.mem_cons_of_mem _ hq)
            rw [cfgElemOk] at hokq
            rw [cfgElemOk]
            rw [lookupKey_removeKey_ne _ hqp]
            exact hokq)
        rw [destroyCfgElems]
        simp only [hdel, hfr, hih, hbeq, cfgBufs_cons, helem, removeKeys]

/-- C7: owning destruction. For `VehiclePropValueListHolder` with
`mDeleteInDestructor` set: each element's buffer is freed (via
`deleteMembers`), then the element record, then the heap-allocated `List`
object; for `VehiclePropertiesHolder` with `mDeleteConfigsInDestructor` set:
each config's string, then the config record.  Every allocation made for the
elements is removed exactly once (the run succeeds, which in this model
rules out double frees) and the allocation count drops by exactly the
number of allocations the elements accounted for. -/
theorem holders_owning_destruction (h : Heap) (mListPtr : Nat)
    (elems cfgElems : List Nat) (hWF : Heap.WF h)
    (hlist : lookupKey h.lists mListPtr = some elems)
    (hnd : elems.Nodup) (hbnd : (elemBufs h elems).Nodup)
    (hok : ∀ p ∈ elems, valueElemOk h p = true)
    (hcnd : cfgElems.Nodup) (hcbnd : (cfgBufs h cfgElems).Nodup)
    (hcok : ∀ p ∈ cfgElems, cfgElemOk h p = true) :
    (VehiclePropValueListHolder.dtor h mListPtr true =
      some { h with
               recs := removeKeys h.recs elems
               bufs := removeKeys h.bufs (elemBufs h elems)
               lists := removeKey h.lists mListPtr }) ∧
    ({ h with
         recs := removeKeys h.recs elems
         bufs := removeKeys h.bufs (elemBufs h elems)
         lists := removeKey h.lists mListPtr } : Heap).allocCount +
       (elems.length + (elemBufs h elems).length + 1) = h.allocCount ∧
    (VehiclePropertiesHolder.dtor h cfgElems true =
      some { h with
               cfgs := removeKeys h.cfgs cfgElems
               bufs := removeKeys h.bufs (cfgBufs h cfgElems) }) ∧
    ({ h with
         cfgs := removeKeys h.cfgs cfgElems
         bufs := removeKeys h.bufs (cfgBufs h cfgElems) } : Heap).allocCount +
       (cfgElems.length + (cfgBufs h cfgElems).length) = h.allocCount := by
  obtain ⟨hnp, hndB, hndR, hndC, hndL, hbB, hbR, hbC, hbL⟩ := hWF
  have hm : mListPtr ∈ keysOf h.lists := mem_keysOf_of_lookupKey hlist
  have hm0 : mListPtr ≠ 0 := by
    have := (hbL _ hm).1
    omega
  have hmemR : ∀ p ∈ elems, p ∈ keysOf h.recs := by
    intro p hp
    have hx := hok p hp
    rw [valueElemOk] at hx
    rcases hl : lookupKey h.recs p with _ | v
    · rw [hl] at hx
      simp at hx
    · exact mem_keysOf_of_lookupKey hl
  have hmemB : ∀ b ∈ elemBufs h elems, b ∈ keysOf h.bufs := by
    intro b hb
    simp only [elemBufs] at hb
    rcases List.mem_filterMap.mp hb with ⟨p, hp, hpb⟩
    rw [elemBuf] at hpb
    rcases hl : lookupKey h.recs p with _ | v
    · rw [hl] at hpb
      simp at hpb
    · rw [hl] at hpb
      have hpb2 : (if (v.value_type = VEHICLE_VALUE_TYPE_BYTES ∨
          v.value_type = VEHICLE_VALUE_TYPE_STRING) ∧ v.str_data ≠ 0 then
          some v.str_data else none) = some b := hpb
      by_cases hc : (v.value_type = VEHICLE_VALUE_TYPE_BYTES ∨
          v.value_type = VEHICLE_VALUE_TYPE_STRING) ∧ v.str_data ≠ 0
      · rw [if_pos hc] at hpb2
        have hx := hok p hp
        rw [valueElemOk, hl] at hx
        have hx2 : (if (v.value_type = VEHICLE_VALUE_TYPE_BYTES ∨
            v.value_type = VEHICLE_VALUE_TYPE_STRING) ∧ v.str_data ≠ 0 then
            (lookupKey h.bufs v.str_data).isSome else true) = true := hx
        rw [if_pos hc] at hx2
        rcases Option.isSome_iff_exists.mp hx2 with ⟨bs, hbs⟩
        exact (Option.some.inj hpb2) ▸ mem_keysOf_of_lookupKey hbs
      · rw [if_neg hc] at hpb2
        simp at hpb2
  have hmemC : ∀ p ∈ cfgElems, p ∈ keysOf h.cfgs := by
    intro p hp
    have hx := hcok p hp
    rw [cfgElemOk] at hx
    rcases hl : lookupKey h.cfgs p with _ | c
    · rw [hl] at hx
      simp at hx
    · exact mem_keysOf_of_lookupKey hl
  have hmemCB : ∀ b ∈ cfgBufs h cfgElems, b ∈ keysOf h.bufs := by
    intro b hb
    simp only [cfgBufs] at hb
    rcases List.mem_filterMap.mp hb with ⟨p, hp, hpb⟩
    rw [cfgBuf] at hpb
    rcases hl : lookupKey h.cfgs p with _ | c
    · rw [hl] at hpb
      simp at hpb
    · rw [hl] at hpb
      have hpb2 : (if c.config_string_data ≠ 0 ∧ c.config_string_len > 0 then
          some c.config_string_data else none) = some b := hpb
      by_cases hc : c.config_string_data ≠ 0 ∧ c.config_string_len > 0
      · rw [if_pos hc] at hpb2
        have hx := hcok p hp
        rw [cfgElemOk, hl] at hx
        have hx2 : (if c.config_string_data ≠ 0 ∧ c.config_string_len > 0 then
            (lookupKey h.bufs c.config_string_data).isSome else true) = true := hx
        rw [if_pos hc] at hx2
        rcases Option.isSome_iff_exists.mp hx2 with ⟨bs, hbs⟩
        exact (Option.some.inj hpb2) ▸ mem_keysOf_of_lookupKey hbs
      · rw [if_neg hc] at hpb2
        simp at hpb2
  have hspec := destroyValueElems_spec elems h (fun p hp => (hbR p hp).1)
    hnd hbnd hok
  have hcspec := destroyCfgElems_spec cfgElems h (fun p hp => (hbC p hp).1)
    hcnd hcbnd hcok
  have hlr := length_removeKeys (α := VehiclePropValue) hnd hndR hmemR
  have hlb := length_removeKeys (α := List Nat) hbnd hndB hmemB
  have hlc := length_removeKeys (α := VehiclePropConfig) hcnd hndC hmemC
  have hlcb := length_removeKeys (α := List Nat) hcbnd hndB hmemCB
  have hll := length_removeKey hm hndL
  refine ⟨?_, ?_, ?_, ?_⟩
  · rw [VehiclePropValueListHolder.dtor, if_pos ⟨rfl, hm0⟩]
    have hfl : freeList { h with
        recs := removeKeys h.recs elems
        bufs := removeKeys h.bufs (elemBufs h elems) } mListPtr =
        some { h with
                 recs := removeKeys h.recs elems
                 bufs := removeKeys h.bufs (elemBufs h elems)
                 lists := removeKey h.lists mListPtr } := by
      simp [freeList, hm0, hlist]
    simp only [hlist, hspec, hfl]
  · simp only [Heap.allocCount]
    omega
  · rw [VehiclePropertiesHolder.dtor, if_pos rfl]
    exact hcspec
  · simp only [Heap.allocCount]
    omega

theorem holders_owning_destruction_witness :
    (VehiclePropValueListHolder.dtor demoHeap2 7 true =
      some { demoHeap2 with
               recs := removeKeys demoHeap2.recs [4, 6]
               bufs := removeKeys demoHeap2.bufs (elemBufs demoHeap2 [4, 6])
               lists := removeKey demoHeap2.lists 7 }) ∧
    ({ demoHeap2 with
         recs := removeKeys demoHeap2.recs [4, 6]
         bufs := removeKeys demoHeap2.bufs (elemBufs demoHeap2 [4, 6])
         lists := removeKey demoHeap2.lists 7 } : Heap).allocCount +
       ([4, 6].length + (elemBufs demoHeap2 [4, 6]).length + 1) =
      demoHeap2.allocCount ∧
    (VehiclePropertiesHolder.dtor demoHeap2 [12] true =
      some { demoHeap2 with
               cfgs := removeKeys demoHeap2.cfgs [12]
               bufs := removeKeys demoHeap2.bufs (cfgBufs demoHeap2 [12]) }) ∧
    ({ demoHeap2 with
         cfgs := removeKeys demoHeap2.cfgs [12]
         bufs := removeKeys demoHeap2.bufs (cfgBufs demoHeap2 [12]) } : Heap).allocCount +
       ([12].length + (cfgBufs demoHeap2 [12]).length) = demoHeap2.allocCount :=
  holders_owning_destruction demoHeap2 7 [4, 6] [12] (by decide) (by decide)
    (by decide) (by decide) (by decide) (by decide) (by decide) (by decide)

/-- C4 (failure-path evaluation): in propagate mode, when the record
allocation inside `allocVehicleProp` fails, the function executes `return
NO_MEMORY` — the `status_t` constant, not a null pointer (in the C++ source
this `return` does not even type-check inside a pointer-returning function;
it is compiled out only because `ASSERT_ON_NO_MEMORY` is defined).  When
instead the buffer allocation inside `copyVehicleProp` fails,
`allocVehicleProp` does return `NULL`, and the `unique_ptr` has already
freed the record: the heap holds no allocation attributable to the failed
call. -/
theorem allocVehicleProp_failure_eval :
    (allocVehicleProp AllocMode.propagateMode
        { demoHeap with oracle := [false] } demoSrc =
      Res.ok ({ demoHeap with oracle := [] }, NO_MEMORY) ∧
     (NO_MEMORY : Int) ≠ 0) ∧
    (allocVehicleProp AllocMode.propagateMode
        { demoHeap with oracle := [true, false] } demoSrc =
      Res.ok ({ demoHeap with nextPtr := 6, oracle := [] }, 0) ∧
     ({ demoHeap with nextPtr := 6, oracle := [] } : Heap).allocCount =
       ({ demoHeap with oracle := [true, false] } : Heap).allocCount) := by
  refine ⟨⟨by decide, by decide⟩, by decide, by decide⟩

/-- C9 (policy evaluation): in assert mode every injected allocation failure
aborts (`assert`); in propagate mode `copyVehicleProp` returns `NO_MEMORY`
as the claim states, but `allocVehicleProp`'s record-allocation site
produces `NO_MEMORY` — not `NULL` — as its result, so the propagate half of
the claimed policy does not hold at that site. -/
theorem alloc_policy_eval :
    copyVehicleProp AllocMode.assertMode { demoHeap with oracle := [false] }
        zeroValue demoSrc false = Res.aborted ∧
    allocVehicleProp AllocMode.assertMode { demoHeap with oracle := [false] }
        demoSrc = Res.aborted ∧
    allocVehicleProp AllocMode.assertMode { demoHeap with oracle := [true, false] }
        demoSrc = Res.aborted ∧
    copyVehicleProp AllocMode.propagateMode { demoHeap with oracle := [false] }
        zeroValue demoSrc false =
      Res.ok ({ demoHeap with oracle := [] },
        { demoSrc with str_data := 0 }, NO_MEMORY) ∧
    allocVehicleProp AllocMode.propagateMode { demoHeap with oracle := [false] }
        demoSrc = Res.ok ({ demoHeap with oracle := [] }, NO_MEMORY) ∧
    (NO_MEMORY : Int) ≠ 0 := by
  refine ⟨by decide, by decide, by decide, by decide, by decide, by decide⟩

end VehicleNetwork
